import Mathlib

/-!
Shallow embedding of the Etsy top-terms analyser (`main.py`) and proofs
about its word-frequency pipeline.

Modelling conventions:
* A Python string is a Lean `String`; `str.isalpha` on characters is
  `Char.isAlpha` (the repository only targets ASCII alphabetic filtering).
* Python lists become Lean `List`s.  `clean_words` mutates its argument
  list in place (`words[n] = word`), so it is embedded as a function that
  returns both the produced list and the final state of the argument list.
* A Python `dict` built by `get_unique_terms_counts` is an association
  list.  Python enumerates `set(words)` in an implementation-defined
  order; we fix one concrete enumeration of the distinct words
  (`List.dedup`).  No theorem below depends on the enumeration order.
* Code that can raise an exception (`max()` on an empty dict) is embedded
  with `Option`: `none` is an uncaught exception escaping the call.
* The network boundary (`requests.get`) is a parameter
  `respond : String → EtsyResponse` giving, per shop name, the status
  code and decoded `results` array; the `STOP_WORDS` global loaded from
  `config.json` (absent from the repository) is a parameter as well.
-/

/-- `remove_non_alpha` (main.py:57-74): keep only the alphabetic
characters of a word, in order. -/
def remove_non_alpha (word : String) : String :=
  ⟨word.data.filter Char.isAlpha⟩

/-- Python `str.isalpha`: true iff the string is non-empty and all its
characters are alphabetic. -/
def pyStrIsAlpha (s : String) : Bool :=
  !s.data.isEmpty && s.data.all Char.isAlpha

/-- One iteration of the first loop of `clean_words` (main.py:98-106) on
one word: returns the words appended to `new_words` by this iteration
(zero or one) and the value written back into `words[n]`. -/
def processWord (shop_name : String) (w : String) : List String × String :=
  if !pyStrIsAlpha w && w != shop_name then
    let w' := remove_non_alpha w
    (if w' = "" then [] else [w'], w')
  else
    ([w], w)

/-- The list comprehension of main.py:109: drop the words that are
members of the stop-word set (set membership is case-sensitive). -/
def filter_stop_words (words : List String) (stop_words : List String) : List String :=
  words.filter (fun w => !stop_words.contains w)

/-- `clean_words` (main.py:77-110).  First component: the returned
`new_words`; second component: the final state of the caller's `words`
list, which the loop updates in place via `words[n] = word`. -/
def clean_words (words : List String) (shop_name : String)
    (stop_words : List String) : List String × List String :=
  let processed := words.map (processWord shop_name)
  (filter_stop_words ((processed.map Prod.fst).flatten) stop_words,
   processed.map Prod.snd)

/-- Python `str.upper`, character by character. -/
def pyUpper (s : String) : String :=
  ⟨s.data.map Char.toUpper⟩

/-- Python `str.split()` with no argument: split on whitespace runs,
discarding empty pieces. -/
def pySplit (s : String) : List String :=
  (s.split Char.isWhitespace).filter (fun w => w != "")

/-- One decoded listing record: both fields may be absent (`KeyError`
in the source). -/
structure Listing where
  title : Option String
  description : Option String

/-- The decoded reply of the listings endpoint for one shop. -/
structure EtsyResponse where
  status_code : Nat
  results : List Listing

/-- `get_shop_listings` (main.py:31-55): `results` on HTTP 200, `None`
otherwise.  The network call is abstracted by `respond`. -/
def get_shop_listings (respond : String → EtsyResponse)
    (shop_name : String) : Option (List Listing) :=
  let shop := respond shop_name
  if shop.status_code = 200 then some shop.results else none

/-- `get_descriptions_and_titles` (main.py:113-145): for each listing,
upper-case and whitespace-split the description, then the title; a
missing field contributes nothing. -/
def get_descriptions_and_titles (shop_listings : List Listing) : List String :=
  (shop_listings.map (fun listing =>
    (match listing.description with
     | some d => pySplit (pyUpper d)
     | none => []) ++
    (match listing.title with
     | some t => pySplit (pyUpper t)
     | none => []))).flatten

/-- `get_unique_terms_counts` (main.py:180-203): one `(word, count)`
entry per distinct word. -/
def get_unique_terms_counts (words : List String) : List (String × Nat) :=
  words.dedup.map (fun w => (w, words.count w))

/-- One comparison step of Python's `max`: a candidate replaces the
current best only when its key value is strictly greater, so the first
entry carrying the maximal value wins. -/
def pymaxStep (best : Option (String × Nat)) (p : String × Nat) :
    Option (String × Nat) :=
  match best with
  | none => some p
  | some q => if q.2 < p.2 then some p else some q

/-- Python `max(word_counts, key=lambda key: word_counts[key])`
(main.py:227) together with the value lookup: the first entry carrying
the maximal count, `none` when the dict is empty (Python raises
`ValueError` there). -/
def pymax (word_counts : List (String × Nat)) : Option (String × Nat) :=
  word_counts.foldl pymaxStep none

/-- `del word_counts[top_word]` (main.py:229); keys are distinct, so
dropping every entry with the key drops exactly one. -/
def delKey (word_counts : List (String × Nat)) (k : String) : List (String × Nat) :=
  word_counts.filter (fun p => p.1 != k)

/-- The `for _ in range(n)` loop of `get_top_n_counts` (main.py:226-229).
`none` models the `ValueError` raised by `max` on an exhausted dict. -/
def topNLoop : Nat → List (String × Nat) → Option (List (String × Nat))
  | 0, _ => some []
  | n + 1, word_counts =>
    match pymax word_counts with
    | none => none
    | some p => (topNLoop n (delKey word_counts p.1)).map (p :: ·)

/-- `get_top_n_counts` (main.py:206-231). -/
def get_top_n_counts (words : List String) (n : Nat) :
    Option (List (String × Nat)) :=
  topNLoop n (get_unique_terms_counts words)

/-- The body of the loop of `get_shops_and_listings` (main.py:167-175)
for one shop: fetch, test Python truthiness of the result (`None` and
`[]` are both falsy), run the pipeline when truthy, else record the
`None` marker.  `none` is an exception escaping `get_top_n_counts`. -/
def analyzeShop (respond : String → EtsyResponse) (stop_words : List String)
    (shop_name : String) : Option (String × Option (List (String × Nat))) :=
  match get_shop_listings respond shop_name with
  | some listings =>
    if listings.isEmpty then
      some (shop_name, none)
    else
      let shop_words := get_descriptions_and_titles listings
      let shop_words := (clean_words shop_words shop_name stop_words).1
      match get_top_n_counts shop_words 5 with
      | none => none
      | some top_5_words => some (shop_name, some top_5_words)
  | none => some (shop_name, none)

/-- `get_shops_and_listings` (main.py:148-177): run `analyzeShop` over
the given names in order; an exception in any iteration aborts the whole
call (`none`). -/
def get_shops_and_listings (respond : String → EtsyResponse)
    (stop_words : List String) :
    List String → Option (List (String × Option (List (String × Nat))))
  | [] => some []
  | shop_name :: rest =>
    match analyzeShop respond stop_words shop_name with
    | none => none
    | some e => (get_shops_and_listings respond stop_words rest).map (e :: ·)

/-! ### Helper lemmas -/

theorem mem_filter_stop_words {w : String} {S W : List String} :
    w ∈ filter_stop_words S W ↔ w ∈ S ∧ w ∉ W := by
  simp [filter_stop_words, List.mem_filter]

/-- C1: Top-N selection: the source raises `ValueError` (embedded:
returns `none`) whenever there are fewer distinct tokens than `n`,
here evaluated at the empty token list and at a one-token list with
`n = 5`; it does not return a shorter sequence. -/
theorem get_top_n_counts_underflow_raises :
    get_top_n_counts [] 5 = none ∧ get_top_n_counts ["A"] 5 = none := by
  constructor <;> rfl

/-- C2: a found shop whose listings yield zero tokens (here: one listing
with neither title nor description) makes the downstream pipeline raise
(embedded: the orchestrator returns `none`) instead of producing an
empty result. -/
theorem zero_token_shop_pipeline_raises :
    get_shops_and_listings (fun _ => ⟨200, [⟨none, none⟩]⟩) [] ["someshop"]
      = none := by
  rfl

/-- C5: the normaliser keeps no non-alphabetic character, returns a
subsequence of the input (hence order and case of kept characters are
preserved), is idempotent, and maps `""` to `""`. -/
theorem remove_non_alpha_spec (w : String) :
    (∀ c ∈ (remove_non_alpha w).data, c.isAlpha) ∧
    (remove_non_alpha w).data.Sublist w.data ∧
    remove_non_alpha (remove_non_alpha w) = remove_non_alpha w ∧
    remove_non_alpha "" = "" := by
  refine ⟨?_, ?_, ?_, rfl⟩
  · intro c hc
    exact (List.mem_filter.mp hc).2
  · exact List.filter_sublist _
  · show (⟨(w.data.filter Char.isAlpha).filter Char.isAlpha⟩ : String) = _
    congr 1
    apply List.filter_eq_self.mpr
    intro c hc
    exact (List.mem_filter.mp hc).2

theorem remove_non_alpha_spec_witness :
    Char.isAlpha 'a' ∧ remove_non_alpha "a1!" = "a" :=
  ⟨(remove_non_alpha_spec "a1!").1 'a' (by decide), by decide⟩

/-- C7: the frequency counter has exactly the distinct input tokens as
keys (each once), its counts sum to the input length, and the empty
input gives the empty mapping. -/
theorem get_unique_terms_counts_spec (words : List String) :
    ((get_unique_terms_counts words).map Prod.fst).Nodup ∧
    (∀ w, w ∈ (get_unique_terms_counts words).map Prod.fst ↔ w ∈ words) ∧
    ((get_unique_terms_counts words).map Prod.snd).sum = words.length ∧
    get_unique_terms_counts [] = [] := by
  have hfst : (get_unique_terms_counts words).map Prod.fst = words.dedup := by
    simp [get_unique_terms_counts, Function.comp_def]
  refine ⟨?_, ?_, ?_, rfl⟩
  · rw [hfst]; exact List.nodup_dedup words
  · intro w; rw [hfst]; exact List.mem_dedup
  · have hsnd : (get_unique_terms_counts words).map Prod.snd
        = words.dedup.map (fun w => words.count w) := by
      simp [get_unique_terms_counts]
    rw [hsnd]
    exact List.sum_map_count_dedup_eq_length words

theorem get_unique_terms_counts_spec_witness :
    "A" ∈ (get_unique_terms_counts ["A", "B", "A"]).map Prod.fst ∧
    ((get_unique_terms_counts ["A", "B", "A"]).map Prod.snd).sum = 3 :=
  ⟨((get_unique_terms_counts_spec ["A", "B", "A"]).2.1 "A").mpr (by decide),
   (get_unique_terms_counts_spec ["A", "B", "A"]).2.2.1⟩

theorem map_eq_self_iff {α : Type} (f : α → α) :
    ∀ l : List α, l.map f = l ↔ ∀ x ∈ l, f x = x
  | [] => by simp
  | a :: l => by
    simp [map_eq_self_iff f l]

theorem remove_non_alpha_eq_self {w : String} :
    remove_non_alpha w = w ↔ w.data.all Char.isAlpha = true := by
  constructor
  · intro h
    apply List.all_eq_true.mpr
    intro c hc
    have hdata : w.data.filter Char.isAlpha = w.data := congrArg String.data h
    exact List.filter_eq_self.mp hdata c hc
  · intro h
    apply String.ext
    show w.data.filter Char.isAlpha = w.data
    exact List.filter_eq_self.mpr (List.all_eq_true.mp h)

theorem processWord_snd_eq_self (name w : String) :
    (processWord name w).2 = w ↔ (w = name ∨ w.data.all Char.isAlpha = true) := by
  by_cases hname : w = name
  · simp [processWord, hname]
  · by_cases halpha : pyStrIsAlpha w = true
    · have hall : w.data.all Char.isAlpha = true := by
        simp only [pyStrIsAlpha, Bool.and_eq_true] at halpha
        exact halpha.2
      simp [processWord, halpha, hall]
    · have hc : (!pyStrIsAlpha w && w != name) = true := by
        simp [halpha, hname]
      simp only [processWord, hc, if_true]
      constructor
      · intro h
        exact Or.inr (remove_non_alpha_eq_self.mp h)
      · intro h
        rcases h with h | h
        · exact absurd h hname
        · exact remove_non_alpha_eq_self.mpr h

/-- C3 counterexample: `clean_words` writes the stripped form of each
token back into the caller's list, so the caller-supplied input is
changed: on input list `["a1"]` the list ends up as `["a"]`. -/
theorem clean_words_mutates_input :
    (clean_words ["a1"] "s" []).2 = ["a"] ∧
    (clean_words ["a1"] "s" []).2 ≠ ["a1"] := by
  decide

/-- C3 (amended): `clean_words` leaves the caller-supplied token list
unchanged exactly when every token is the shop name or wholly
alphabetic; any other token is overwritten in place with its stripped
form, so the pipeline is not side-effect-free on provided data. -/
theorem clean_words_mutation_characterisation (words : List String)
    (name : String) (W : List String) :
    (clean_words words name W).2 = words ↔
      ∀ w ∈ words, w = name ∨ w.data.all Char.isAlpha = true := by
  have hsnd : (clean_words words name W).2
      = words.map (fun w => (processWord name w).2) := by
    simp [clean_words, List.map_map, Function.comp_def]
  rw [hsnd, map_eq_self_iff]
  exact ⟨fun H w hw => (processWord_snd_eq_self name w).mp (H w hw),
         fun H w hw => (processWord_snd_eq_self name w).mpr (H w hw)⟩

theorem clean_words_mutation_characterisation_witness :
    (clean_words ["ab"] "s" []).2 = ["ab"] :=
  (clean_words_mutation_characterisation ["ab"] "s" []).mpr (by decide)

/-- C6 counterexample: the stop-word test is case-sensitive and does not
upper-case the token: `"a"` survives the filter although its upper-cased
form `"A"` is in the stop-word set. -/
theorem stop_word_filter_case_counterexample :
    "a" ∈ filter_stop_words ["a"] ["A"] ∧ pyUpper "a" ∈ (["A"] : List String) := by
  decide

/-- C6 (amended): every token in the filter's output is itself not a
member of the stop-word set (membership is case-sensitive; tokens are
upper-cased upstream during extraction, not here), the output is an
order-preserving subsequence of the input, and an empty stop-word set
leaves the input unchanged. -/
theorem filter_stop_words_spec (S W : List String) :
    (∀ w ∈ filter_stop_words S W, w ∉ W) ∧
    (filter_stop_words S W).Sublist S ∧
    filter_stop_words S [] = S := by
  refine ⟨fun w hw => (mem_filter_stop_words.mp hw).2, List.filter_sublist _, ?_⟩
  simp [filter_stop_words]

theorem filter_stop_words_spec_witness :
    ("b" ∉ (["A"] : List String)) ∧ filter_stop_words ["x"] [] = ["x"] :=
  ⟨(filter_stop_words_spec ["b"] ["A"]).1 "b" (by decide),
   (filter_stop_words_spec ["x"] ["A"]).2.2⟩

theorem count_filter_of_pos {α : Type} [DecidableEq α] (p : α → Bool) (a : α)
    (hp : p a = true) : ∀ l : List α, (l.filter p).count a = l.count a
  | [] => rfl
  | b :: l => by
    by_cases hb : p b = true
    · simp [List.filter_cons, hb, List.count_cons, count_filter_of_pos p a hp l]
    · have hba : ¬(b == a) = true := by
        intro hcontr
        exact hb ((eq_of_beq hcontr) ▸ hp)
      simp [List.filter_cons, hb, List.count_cons,
            count_filter_of_pos p a hp l, hba]

theorem count_processed_ge (name : String) :
    ∀ words : List String,
      words.count name ≤
        (((words.map (processWord name)).map Prod.fst).flatten).count name
  | [] => Nat.le_refl 0
  | w :: ws => by
    have ih := count_processed_ge name ws
    by_cases hw : w = name
    · subst hw
      have hpw : processWord w w = ([w], w) := by
        simp [processWord]
      simp only [List.map_cons, List.flatten_cons, hpw,
                 List.count_append, List.count_cons]
      simp only [List.count_cons] at *
      omega
    · have hcount : (w :: ws).count name = ws.count name := by
        rw [List.count_cons]
        simp [hw]
      rw [hcount]
      simp only [List.map_cons, List.flatten_cons, List.count_append]
      exact le_trans ih (Nat.le_add_left _ _)

/-- C8: a token equal to the shop's own name bypasses alpha-stripping
(each of its occurrences survives the cleaning stage verbatim, even when
it contains non-alphabetic characters) yet it is still excluded from the
output when it is a member of the stop-word set. -/
theorem shop_name_token_handling (words : List String) (name : String)
    (W : List String) :
    (name ∈ W → name ∉ (clean_words words name W).1) ∧
    (name ∉ W → words.count name ≤ (clean_words words name W).1.count name) := by
  constructor
  · intro hW hmem
    exact (mem_filter_stop_words.mp hmem).2 hW
  · intro hW
    have hp : (fun w => !W.contains w) name = true := by
      simp [hW]
    have h1 : (clean_words words name W).1
        = (((words.map (processWord name)).map Prod.fst).flatten).filter
            (fun w => !W.contains w) := rfl
    rw [h1, count_filter_of_pos _ name hp]
    exact count_processed_ge name words

theorem shop_name_token_handling_witness :
    ("s#" ∉ (clean_words ["s#"] "s#" ["s#"]).1) ∧
    (["s#"].count "s#" ≤ (clean_words ["s#"] "s#" []).1.count "s#") :=
  ⟨(shop_name_token_handling ["s#"] "s#" ["s#"]).1 (by decide),
   (shop_name_token_handling ["s#"] "s#" []).2 (by decide)⟩

theorem pymaxStep_eq (best : Option (String × Nat)) (q : String × Nat) :
    pymaxStep best q = some q ∨ pymaxStep best q = best := by
  cases best with
  | none => exact Or.inl rfl
  | some r =>
    by_cases h : r.2 < q.2 <;> simp [pymaxStep, h]

theorem foldl_pymaxStep_mem :
    ∀ (l : List (String × Nat)) (acc : Option (String × Nat)) (p : String × Nat),
      l.foldl pymaxStep acc = some p → acc = some p ∨ p ∈ l
  | [], _, _ => fun h => Or.inl h
  | q :: l, acc, p => fun h => by
    rcases foldl_pymaxStep_mem l (pymaxStep acc q) p h with h1 | h1
    · rcases pymaxStep_eq acc q with h2 | h2
      · rw [h1] at h2
        have := Option.some_inj.mp h2
        subst this
        exact Or.inr (List.mem_cons_self _ _)
      · rw [h1] at h2
        exact Or.inl h2.symm
    · exact Or.inr (List.mem_cons_of_mem q h1)

theorem pymax_mem {wc : List (String × Nat)} {p : String × Nat}
    (h : pymax wc = some p) : p ∈ wc := by
  rcases foldl_pymaxStep_mem wc none p h with h1 | h1
  · exact Option.noConfusion h1
  · exact h1

theorem mem_delKey {wc : List (String × Nat)} {k : String} {q : String × Nat} :
    q ∈ delKey wc k ↔ q ∈ wc ∧ q.1 ≠ k := by
  simp [delKey, List.mem_filter]

theorem topNLoop_sound :
    ∀ (n : Nat) (wc res : List (String × Nat)), topNLoop n wc = some res →
      (∀ p ∈ res, p ∈ wc) ∧
      ((wc.map Prod.fst).Nodup → (res.map Prod.fst).Nodup)
  | 0, wc, res => fun h => by
    cases h
    exact ⟨fun p hp => absurd hp (List.not_mem_nil p), fun _ => List.nodup_nil⟩
  | n + 1, wc, res => fun h => by
    simp only [topNLoop] at h
    cases hm : pymax wc with
    | none => rw [hm] at h; exact Option.noConfusion h
    | some p =>
      rw [hm] at h
      rcases Option.map_eq_some'.mp h with ⟨res', hres', rfl⟩
      obtain ⟨ihmem, ihnd⟩ := topNLoop_sound n (delKey wc p.1) res' hres'
      constructor
      · intro q hq
        rcases List.mem_cons.mp hq with rfl | hq'
        · exact pymax_mem hm
        · exact (mem_delKey.mp (ihmem q hq')).1
      · intro hnd
        have hnd' : ((delKey wc p.1).map Prod.fst).Nodup :=
          hnd.sublist ((List.filter_sublist wc).map Prod.fst)
        simp only [List.map_cons]
        refine List.nodup_cons.mpr ⟨?_, ihnd hnd'⟩
        intro hmem
        rcases List.mem_map.mp hmem with ⟨q, hq, hq1⟩
        exact (mem_delKey.mp (ihmem q hq)).2 hq1

/-- C9: every sequence the Top-N selector returns has pairwise distinct
tokens, and every returned count is at least 1. -/
theorem get_top_n_counts_invariants (words : List String) (n : Nat)
    (res : List (String × Nat)) (h : get_top_n_counts words n = some res) :
    (res.map Prod.fst).Nodup ∧ ∀ p ∈ res, 1 ≤ p.2 := by
  obtain ⟨hmem, hnd⟩ := topNLoop_sound n (get_unique_terms_counts words) res h
  constructor
  · apply hnd
    have hfst : (get_unique_terms_counts words).map Prod.fst = words.dedup := by
      simp [get_unique_terms_counts, Function.comp_def]
    rw [hfst]
    exact List.nodup_dedup words
  · intro p hp
    have hpwc := hmem p hp
    rcases List.mem_map.mp hpwc with ⟨w, hw, rfl⟩
    show 1 ≤ words.count w
    exact List.count_pos_iff.mpr (List.mem_dedup.mp hw)

theorem get_top_n_counts_invariants_witness :
    ((([("A", 2), ("B", 1)] : List (String × Nat)).map Prod.fst).Nodup) ∧
    (1 : Nat) ≤ 2 := by
  have h := get_top_n_counts_invariants ["A", "A", "B"] 2
    [("A", 2), ("B", 1)] (by decide)
  exact ⟨h.1, h.2 ("A", 2) (by decide)⟩

theorem analyzeShop_notFound {respond : String → EtsyResponse}
    {W : List String} {shop_name : String}
    (h : get_shop_listings respond shop_name = none ∨
         get_shop_listings respond shop_name = some []) :
    analyzeShop respond W shop_name = some (shop_name, none) := by
  rcases h with h | h <;> simp [analyzeShop, h]

theorem analyzeShop_fst {respond : String → EtsyResponse} {W : List String}
    {shop_name : String} {e : String × Option (List (String × Nat))}
    (h : analyzeShop respond W shop_name = some e) : e.1 = shop_name := by
  cases hg : get_shop_listings respond shop_name with
  | none =>
    simp only [analyzeShop, hg] at h
    cases h
    rfl
  | some listings =>
    simp only [analyzeShop, hg] at h
    by_cases he : listings.isEmpty
    · rw [if_pos he] at h
      cases h
      rfl
    · rw [if_neg he] at h
      cases ht : get_top_n_counts
          ((clean_words (get_descriptions_and_titles listings) shop_name W).1)
          5 with
      | none =>
        simp only [ht] at h
        exact Option.noConfusion h
      | some t5 =>
        simp only [ht] at h
        cases h
        rfl

/-- C4: whenever the listing source signals not-found for a name (a
non-success response, giving `None`, or an empty result set), that
shop's analysis pipeline is never run: the orchestrator records the
`None` marker for the name at the name's position and the remaining
shops are still processed. -/
theorem not_found_records_marker (respond : String → EtsyResponse)
    (W : List String) :
    ∀ (names : List String) (res : List (String × Option (List (String × Nat)))),
      get_shops_and_listings respond W names = some res →
      ∀ (i : Nat) (name : String), names.get? i = some name →
        (get_shop_listings respond name = none ∨
         get_shop_listings respond name = some []) →
        res.get? i = some (name, none)
  | [], _, _ => fun i name hi _ => by
    cases i <;> exact Option.noConfusion hi
  | shop :: rest, res, h => fun i name hi hnf => by
    simp only [get_shops_and_listings] at h
    cases ha : analyzeShop respond W shop with
    | none => rw [ha] at h; exact Option.noConfusion h
    | some e =>
      rw [ha] at h
      rcases Option.map_eq_some'.mp h with ⟨res', hres', rfl⟩
      cases i with
      | zero =>
        have hname : shop = name := by
          have h0 : some shop = some name := hi
          exact Option.some_inj.mp h0
        subst hname
        have hmark := analyzeShop_notFound (W := W) hnf
        rw [hmark] at ha
        have he : e = (shop, none) := (Option.some_inj.mp ha).symm
        simp [he]
      | succ j =>
        exact not_found_records_marker respond W rest res' hres' j name hi hnf

theorem not_found_records_marker_witness :
    (get_shops_and_listings (fun _ => ⟨404, []⟩) [] ["missing"]
        = some [("missing", none)]) ∧
    ([("missing", (none : Option (List (String × Nat))))].get? 0
        = some ("missing", none)) :=
  ⟨rfl,
   not_found_records_marker (fun _ => ⟨404, []⟩) [] ["missing"]
     [("missing", none)] rfl 0 "missing" rfl (Or.inl rfl)⟩

/-- C10: a successful orchestrator run returns exactly one entry per
input shop name, in input order, each carrying that shop name unchanged
as its first component. -/
theorem shops_output_matches_names (respond : String → EtsyResponse)
    (W : List String) :
    ∀ (names : List String) (res : List (String × Option (List (String × Nat)))),
      get_shops_and_listings respond W names = some res →
      res.map Prod.fst = names ∧ res.length = names.length
  | [], _, h => by
    cases h
    exact ⟨rfl, rfl⟩
  | shop :: rest, res, h => by
    simp only [get_shops_and_listings] at h
    cases ha : analyzeShop respond W shop with
    | none => rw [ha] at h; exact Option.noConfusion h
    | some e =>
      rw [ha] at h
      rcases Option.map_eq_some'.mp h with ⟨res', hres', rfl⟩
      obtain ⟨h1, h2⟩ := shops_output_matches_names respond W rest res' hres'
      constructor
      · simp [analyzeShop_fst ha, h1]
      · simp [h2]

theorem shops_output_matches_names_witness :
    (get_shops_and_listings (fun _ => ⟨404, []⟩) [] ["a", "b"]
        = some [("a", none), ("b", none)]) ∧
    (([("a", (none : Option (List (String × Nat)))), ("b", none)]).map Prod.fst
        = ["a", "b"]) :=
  ⟨rfl,
   (shops_output_matches_names (fun _ => ⟨404, []⟩) [] ["a", "b"]
     [("a", none), ("b", none)] rfl).1⟩
